import Mathlib

/-!
Formal model of the formula1-wiki fetch-cache-and-aggregate engine.

The definitions below are shallow embeddings of the TypeScript modules:
  - src/src/services/api/cache.ts (response cache and rate limiter),
  - src/unnamed/part_002 (entity interfaces and the sessions fetcher),
  - src/unnamed/part_003 (circuits derived from meetings),
  - src/unnamed/part_005 (drivers fetcher, year-scoped chain),
  - src/unnamed/part_008 (standings aggregation),
  - src/src/services/openf1.ts (a near-identical second copy of the same
    cache, fetchers and standings algorithm inside class OpenF1Service).

Modelling conventions:
  - ISO date strings are modelled as natural-number timestamps, since the
    code only ever compares them after `new Date(...)` conversion.
  - Asynchronous calls that may throw are modelled as `Except` values;
    upstream fetchers become explicit function parameters.
  - A JS `Map` read with `map.get(k) || 0` is modelled as a total function
    with default value 0; `map.set` is pointwise update.
  - JS `Array.prototype.sort` is stable (ES2019), so a sort with comparator
    `c` is modelled as `List.mergeSort` with `le a b := c a b ≤ 0`.
  - Thrown `Error` messages are modelled by the inductive `StandingsError`;
    the code only distinguishes errors by their message strings.
-/

/-- Driver record, interface `Driver` in src/unnamed/part_002. -/
structure Driver where
  driver_number : Nat
  broadcast_name : String
  full_name : String
  name_acronym : String
  team_name : String
  team_colour : String
  first_name : String
  last_name : String
  headshot_url : Option String
  country_code : String
  session_key : Option Nat
  meeting_key : Option Nat
deriving DecidableEq

/-- Session record, interface `Session` in src/unnamed/part_002. The field
`date_end` is `Option Nat` because the standings code guards on its
truthiness (`session.date_end && ...`). -/
structure Session where
  session_key : Nat
  session_name : String
  session_type : String
  date_start : Nat
  date_end : Option Nat
  gmt_offset : String
  meeting_key : Nat
  location : String
  country_code : String
  country_name : String
  circuit_key : Nat
  circuit_short_name : String
  year : Nat
deriving DecidableEq

/-- Meeting record, interface `Meeting` in src/unnamed/part_002. -/
structure Meeting where
  meeting_key : Nat
  meeting_name : String
  meeting_official_name : String
  location : String
  country_code : String
  country_name : String
  circuit_key : Nat
  circuit_short_name : String
  date_start : Nat
  gmt_offset : String
  year : Nat
deriving DecidableEq

/-- Position record, interface `Position` in src/unnamed/part_002. The
`position` field is an `Int` so that the validity filter `position > 0`
is meaningful. -/
structure Position where
  date : Nat
  driver_number : Nat
  meeting_key : Nat
  session_key : Nat
  position : Int
deriving DecidableEq

/-- Circuit record, interface `Circuit` in src/unnamed/part_002; optional
fields are `Option`. -/
structure Circuit where
  circuit_key : Nat
  circuit_short_name : String
  circuit_name : String
  country_code : String
  country_name : String
  location : String
  date_start : Option Nat
  date_end : Option Nat
  gmt_offset : Option String
  meeting_key : Option Nat
deriving DecidableEq

/-- Cache TTL in milliseconds: `CACHE_DURATION = 15 * 60 * 1000` in
src/src/services/api/cache.ts. -/
def CACHE_DURATION : Nat := 15 * 60 * 1000

/-- Minimum spacing between API calls in milliseconds:
`MIN_API_INTERVAL = 350` in src/src/services/api/cache.ts. -/
def MIN_API_INTERVAL : Nat := 350

/-- One cache entry, interface `CacheEntry` in cache.ts. -/
structure CacheEntry (α : Type) where
  data : α
  timestamp : Nat
deriving DecidableEq

/-- The in-memory cache `Map<string, CacheEntry>`, modelled as a function
from keys to optional entries (a JS Map holds at most one entry per key). -/
def CacheMap (α : Type) : Type := String → Option (CacheEntry α)

/-- Model of `cache.set(key, e)`. -/
def cacheSet {α : Type} (cache : CacheMap α) (key : String) (e : CacheEntry α) : CacheMap α :=
  fun k => if k = key then some e else cache k

/-- Model of `getCachedOrFetch` (cache.ts lines 65 to 78). The producer is a
value of `Except Unit α` standing for the settled promise of `fetchFn()`.
Returns the produced or cached result, the cache after the call, and a flag
recording whether the producer was invoked. On a fresh hit the cached data
is returned without invoking the producer; on a miss or a stale entry the
producer runs, and only a successful result is stored (a rejection
propagates before `cache.set` executes). -/
def getCachedOrFetch {α : Type} (now : Nat) (cache : CacheMap α) (key : String)
    (fetchFn : Except Unit α) : Except Unit α × CacheMap α × Bool :=
  match cache key with
  | some cached =>
    if now - cached.timestamp < CACHE_DURATION then
      (.ok cached.data, cache, false)
    else
      match fetchFn with
      | .ok data => (.ok data, cacheSet cache key ⟨data, now⟩, true)
      | .error e => (.error e, cache, true)
  | none =>
    match fetchFn with
    | .ok data => (.ok data, cacheSet cache key ⟨data, now⟩, true)
    | .error e => (.error e, cache, true)

/-- Model of `rateLimitedApiCall` (cache.ts lines 43 to 55). Given the
module state `lastApiCall` and the clock value `now` at entry, the thunk is
dispatched at `lastApiCall + MIN_API_INTERVAL` when not enough time has
passed, and immediately at `now` otherwise; the state is set to the
dispatch time and the thunk result is returned unchanged. -/
def rateLimitedApiCall {ε α : Type} (lastApiCall : Nat) (now : Nat) (apiCall : Except ε α) :
    Except ε α × Nat :=
  let dispatch := if now < lastApiCall + MIN_API_INTERVAL then lastApiCall + MIN_API_INTERVAL else now
  (apiCall, dispatch)

/-- A sequence of calls through the rate limiter: each list element is the
arrival clock value and the thunk result of one call; the `lastApiCall`
state is threaded from call to call. Returns each call result with its
dispatch timestamp. -/
def runRateLimited {ε α : Type} (lastApiCall : Nat) : List (Nat × Except ε α) → List (Except ε α × Nat)
  | [] => []
  | (now, call) :: rest =>
    let step := rateLimitedApiCall lastApiCall now call
    step :: runRateLimited step.2 rest

/-- Race-only session filtering from `getRaceSessionsByYear`
(src/unnamed/part_002 lines 213 to 234): keep sessions whose
`session_name` and `session_type` are both the string Race. The upstream
response for the year is the input list. -/
def getRaceSessionsByYear (yearSessions : List Session) : List Session :=
  yearSessions.filter (fun s => s.session_name == "Race" && s.session_type == "Race")

/-- First-occurrence deduplication with an explicit set of already seen
elements; `jsSetList` below instantiates it with the empty set. This is the
iteration order semantics of `new Set(list)` in JS, used for constructor
names in the standings code. -/
def jsSetDedup {α : Type} [DecidableEq α] (seen : List α) : List α → List α
  | [] => []
  | a :: rest =>
    if a ∈ seen then jsSetDedup seen rest
    else a :: jsSetDedup (a :: seen) rest

/-- Model of `Array.from(new Set(list))`: first occurrences in insertion
order. -/
def jsSetList {α : Type} [DecidableEq α] (l : List α) : List α := jsSetDedup [] l

/-- The F1 points table, `F1_POINTS_SYSTEM` in src/unnamed/part_008 line 18. -/
def F1_POINTS_SYSTEM : List Nat := [25, 18, 15, 12, 10, 8, 6, 4, 2, 1]

/-- The four accumulator maps of the standings computation (part_008 step 4),
modelled as total functions with default 0, which matches every read
`map.get(k) || 0` in the source. -/
structure Tallies where
  driverPoints : Nat → Nat
  constructorPoints : String → Nat
  driverWins : Nat → Nat
  constructorWins : String → Nat

/-- The tallies after the initialization loop of part_008 step 4: every
counter reads as 0. -/
def initTallies : Tallies := ⟨fun _ => 0, fun _ => 0, fun _ => 0, fun _ => 0⟩

/-- Pointwise update, the model of `map.set(key, v)`. -/
def mapSet {κ ν : Type} [DecidableEq κ] (f : κ → ν) (key : κ) (v : ν) : κ → ν :=
  fun k => if k = key then v else f k

/-- Completion test of part_008 step 2: `session.date_end` is truthy and
`new Date(session.date_end) < now`. -/
def isCompleted (now : Nat) (s : Session) : Bool :=
  match s.date_end with
  | some d => decide (d < now)
  | none => false

/-- The filter-and-sort step of part_008 step 5: discard entries with
`position <= 0` and sort the rest by `position` ascending with the stable
JS sort. -/
def sortedValidPositions (positions : List Position) : List Position :=
  (positions.filter (fun pos => decide (0 < pos.position))).mergeSort
    (fun a b => decide (a.position ≤ b.position))

/-- Processing of one entry of the sorted position list at zero-based rank
`index` (the body of `sortedPositions.forEach` in part_008). An entry whose
driver number is not in the roster is skipped entirely. Points are
`F1_POINTS_SYSTEM[index] || 0` and are added to the driver and to the team
of that driver only when positive; a win is recorded for entries whose
`position` field equals 1. -/
def awardEntry (allDrivers : List Driver) (t : Tallies) (pos : Position) (index : Nat) : Tallies :=
  match allDrivers.find? (fun d => d.driver_number == pos.driver_number) with
  | none => t
  | some driver =>
    let points := F1_POINTS_SYSTEM.getD index 0
    let t1 :=
      if 0 < points then
        { t with
          driverPoints := mapSet t.driverPoints pos.driver_number
            (t.driverPoints pos.driver_number + points)
          constructorPoints := mapSet t.constructorPoints driver.team_name
            (t.constructorPoints driver.team_name + points) }
      else t
    if pos.position = 1 then
      { t1 with
        driverWins := mapSet t1.driverWins pos.driver_number
          (t1.driverWins pos.driver_number + 1)
        constructorWins := mapSet t1.constructorWins driver.team_name
          (t1.constructorWins driver.team_name + 1) }
    else t1

/-- Processing of one completed race (the loop body of part_008 step 5).
`fetch` models `getPositions(session_key)`; a rejection is caught and the
race is skipped, as is a race whose position list is empty. -/
def processRace (allDrivers : List Driver) (fetch : Nat → Except Unit (List Position))
    (t : Tallies) (raceSession : Session) : Tallies :=
  match fetch raceSession.session_key with
  | .error _ => t
  | .ok positions =>
    if positions.isEmpty then t
    else
      (sortedValidPositions positions).enum.foldl
        (fun acc p => awardEntry allDrivers acc p.2 p.1) t

/-- One row of the computed driver standings: the spread
`{ ...driver, points, wins }` of part_008 step 6. -/
structure DriverStandingEntry where
  driver : Driver
  points : Nat
  wins : Nat
deriving DecidableEq

/-- One row of the computed constructor standings, interface
`ConstructorStandingsEntry` built in part_008 step 7. -/
structure ConstructorStandingsEntry where
  name : String
  colour : String
  drivers : List Driver
  points : Nat
  wins : Nat
deriving DecidableEq

/-- The result record of `calculateStandings`, interface `StandingsResult`
in part_008; `lastUpdated` is the completion timestamp. -/
structure StandingsResult where
  drivers : List DriverStandingEntry
  constructors : List ConstructorStandingsEntry
  totalRaces : Nat
  completedRaces : Nat
  upcomingRaces : Nat
  lastUpdated : Nat
deriving DecidableEq

/-- The shared sort predicate of part_008 steps 6 and 7 as a stable-sort
relation: the JS comparator returns `b.points - a.points` when points
differ and `b.wins - a.wins` otherwise, so `a` may precede `b` exactly when
the comparator value is nonpositive. -/
def standingsLE (pa wa pb wb : Nat) : Bool :=
  if pa == pb then decide (wb ≤ wa) else decide (pb ≤ pa)

/-- Comparator of part_008 step 6 on driver rows. -/
def driverLE (a b : DriverStandingEntry) : Bool := standingsLE a.points a.wins b.points b.wins

/-- Comparator of part_008 step 7 on constructor rows. -/
def constructorLE (a b : ConstructorStandingsEntry) : Bool :=
  standingsLE a.points a.wins b.points b.wins

/-- The pre-sort driver standings list of part_008 step 6: the roster in
fetch order with the accumulated points and wins attached. -/
def attachAll (allDrivers : List Driver) (t : Tallies) : List DriverStandingEntry :=
  allDrivers.map (fun d => ⟨d, t.driverPoints d.driver_number, t.driverWins d.driver_number⟩)

/-- One pre-sort constructor row of part_008 step 7 for a team name. -/
def constructorEntry (allDrivers : List Driver) (t : Tallies) (teamName : String) :
    ConstructorStandingsEntry :=
  let teamDrivers := allDrivers.filter (fun d => d.team_name == teamName)
  { name := teamName
    colour := ((teamDrivers.head?).map (fun d => d.team_colour)).getD "000000"
    drivers := teamDrivers
    points := t.constructorPoints teamName
    wins := t.constructorWins teamName }

/-- The error values thrown out of the standings computation and the driver
fetch chain, distinguished in the source only by their message strings:
`noRaceSessions year` is the message No race sessions found for year Y, and
`driversFetchFailed` is the message Failed to fetch drivers data. -/
inductive StandingsError where
  | noRaceSessions (year : Nat)
  | driversFetchFailed
deriving DecidableEq

/-- Upstream fetches performed while computing standings, in order: the
roster lookup of part_008 step 3 and one positions lookup per completed
race in step 5. -/
inductive FetchEv where
  | rosterFetch
  | positionsFetch (session_key : Nat)
deriving DecidableEq

/-- The tallies after the race loop of part_008 step 5 over the completed
races in order. -/
def raceTallies (allDrivers : List Driver) (fetch : Nat → Except Unit (List Position))
    (completedRaces : List Session) : Tallies :=
  completedRaces.foldl (processRace allDrivers fetch) initTallies

/-- Steps 2 to 7 of `calculateStandings` (part_008), starting from the
already fetched race-session list. `rosterRes` models the settled promise
of `getDrivers(undefined, year)`; its rejection aborts the run with the
drivers fetch error. The second component is the list of upstream fetches
the run performs. -/
def calculateStandingsFromRaces (year : Nat) (raceSessions : List Session) (now : Nat)
    (rosterRes : Except Unit (List Driver)) (fetch : Nat → Except Unit (List Position)) :
    Except StandingsError StandingsResult × List FetchEv :=
  if raceSessions.isEmpty then (.error (.noRaceSessions year), [])
  else
    let completedRaces := raceSessions.filter (isCompleted now)
    match rosterRes with
    | .error _ => (.error .driversFetchFailed, [.rosterFetch])
    | .ok allDrivers =>
      let t := raceTallies allDrivers fetch completedRaces
      (.ok
        { drivers := (attachAll allDrivers t).mergeSort driverLE
          constructors :=
            ((jsSetList (allDrivers.map (fun d => d.team_name))).map
              (constructorEntry allDrivers t)).mergeSort constructorLE
          totalRaces := raceSessions.length
          completedRaces := completedRaces.length
          upcomingRaces := raceSessions.length - completedRaces.length
          lastUpdated := now },
       .rosterFetch :: completedRaces.map (fun r => FetchEv.positionsFetch r.session_key))

/-- Full `calculateStandings` for a year (part_008 lines 40 to 213, cold
cache): the race-session list is the race-only filter of the upstream
sessions response for the year. -/
def calculateStandings (year : Nat) (yearSessions : List Session) (now : Nat)
    (rosterRes : Except Unit (List Driver)) (fetch : Nat → Except Unit (List Position)) :
    Except StandingsError StandingsResult × List FetchEv :=
  calculateStandingsFromRaces year (getRaceSessionsByYear yearSessions) now rosterRes fetch

/-- The year-scoped branch of `getDrivers(sessionKey?, year?)`
(src/unnamed/part_005 lines 22 to 74): fetch the meetings of the year, take
the last one, fetch its sessions, take the last one, fetch the drivers of
that session. Every inner throw, including the explicit no-meetings and
no-sessions errors, is caught and rethrown as the single drivers fetch
error. -/
def getDrivers (meetingsRes : Except Unit (List Meeting))
    (sessionsByMeeting : Nat → Except Unit (List Session))
    (driversBySession : Nat → Except Unit (List Driver)) : Except StandingsError (List Driver) :=
  match meetingsRes with
  | .error _ => .error .driversFetchFailed
  | .ok meetings =>
    match meetings.getLast? with
    | none => .error .driversFetchFailed
    | some latestMeeting =>
      match sessionsByMeeting latestMeeting.meeting_key with
      | .error _ => .error .driversFetchFailed
      | .ok sessions =>
        match sessions.getLast? with
        | none => .error .driversFetchFailed
        | some latestSession =>
          match driversBySession latestSession.session_key with
          | .error _ => .error .driversFetchFailed
          | .ok drivers => .ok drivers

/-- The field projection from a meeting onto the circuit shape, shared by
`getCircuits` and `getCircuitsByYear` (src/unnamed/part_003). -/
def circuitOfMeeting (m : Meeting) : Circuit :=
  { circuit_key := m.circuit_key
    circuit_short_name := m.circuit_short_name
    circuit_name := m.meeting_official_name
    country_code := m.country_code
    country_name := m.country_name
    location := m.location
    date_start := some m.date_start
    date_end := none
    gmt_offset := some m.gmt_offset
    meeting_key := some m.meeting_key }

/-- The dedup loop of `getCircuits` (part_003 lines 18 to 49): walk the
meetings, keep the first meeting per `circuit_key`, project it onto the
circuit shape; the JS Map preserves insertion order, so kept circuits
appear in first-occurrence order. `seen` is the key set of the Map so far. -/
def circuitsDedup (seen : List Nat) : List Meeting → List Circuit
  | [] => []
  | m :: rest =>
    if m.circuit_key ∈ seen then circuitsDedup seen rest
    else circuitOfMeeting m :: circuitsDedup (m.circuit_key :: seen) rest

/-- Model of `getCircuits` from the upstream meetings response. -/
def getCircuits (meetings : List Meeting) : List Circuit := circuitsDedup [] meetings

/-- The date comparator of `getCircuitsByYear` as a stable-sort relation:
the JS comparator returns 0 when either date is missing and the date
difference otherwise. -/
def circuitLE (a b : Circuit) : Bool :=
  match a.date_start, b.date_start with
  | some da, some db => decide (da ≤ db)
  | _, _ => true

/-- Model of `getCircuitsByYear` (part_003 lines 58 to 96): the same dedup
as `getCircuits`, followed by a stable sort on `date_start`. -/
def getCircuitsByYear (meetings : List Meeting) : List Circuit :=
  (circuitsDedup [] meetings).mergeSort circuitLE

/-- A two-driver roster used in concrete checks: driver 1 of team X and
driver 2 of team Y, in this roster order. -/
def drvA : Driver := ⟨1, "A", "Driver A", "DRA", "X", "FF0000", "A", "A", none, "NL", none, none⟩

/-- Second driver of the concrete roster, see `drvA`. -/
def drvB : Driver := ⟨2, "B", "Driver B", "DRB", "Y", "00FF00", "B", "B", none, "GB", none, none⟩

/-- First completed race session of the concrete two-race scenario. -/
def scenRace1 : Session :=
  ⟨101, "Race", "Race", 10, some 20, "+00:00", 11, "Loc1", "C1", "Country1", 5, "S1", 2025⟩

/-- Second completed race session of the concrete two-race scenario. -/
def scenRace2 : Session :=
  ⟨102, "Race", "Race", 30, some 40, "+00:00", 12, "Loc2", "C2", "Country2", 6, "S2", 2025⟩

/-- Position fetches of the concrete two-race scenario: race 1 finishes
in order driver 1 then driver 2, race 2 in order driver 2 then driver 1. -/
def scenFetch : Nat → Except Unit (List Position) := fun k =>
  if k = 101 then .ok [⟨1, 1, 11, 101, 1⟩, ⟨2, 2, 11, 101, 2⟩]
  else if k = 102 then .ok [⟨1, 2, 12, 102, 1⟩, ⟨2, 1, 12, 102, 2⟩]
  else .error ()

/-- Position fetches where only race 101 succeeds and every other session
key rejects. -/
def scenFetchBad : Nat → Except Unit (List Position) := fun k =>
  if k = 101 then .ok [⟨1, 1, 11, 101, 1⟩, ⟨2, 2, 11, 101, 2⟩]
  else .error ()

/-- A completed race session whose single valid position entry carries
finishing position 11. -/
def gapRace : Session :=
  ⟨201, "Race", "Race", 10, some 20, "+00:00", 21, "Loc", "C", "Country", 7, "S", 2025⟩

/-- Position fetch for `gapRace`: one valid entry, driver 1 at position 11. -/
def gapFetch : Nat → Except Unit (List Position) := fun _ => .ok [⟨5, 1, 21, 201, 11⟩]

/-- A qualifying session for the concrete no-race-sessions check. -/
def qualSession : Session :=
  ⟨301, "Qualifying", "Qualifying", 10, some 20, "+00:00", 31, "Loc", "C", "Country", 8, "S", 2025⟩

/-- First concrete meeting: circuit key 1, date 100. Listed before `mtgB`
although it is dated later, to exercise order sensitivity. -/
def mtgA : Meeting := ⟨11, "M1", "GP One", "L1", "C1", "Ctry1", 1, "Circ1", 100, "+00:00", 2025⟩

/-- Second concrete meeting: circuit key 2, date 50. -/
def mtgB : Meeting := ⟨12, "M2", "GP Two", "L2", "C2", "Ctry2", 2, "Circ2", 50, "+00:00", 2025⟩

/-- A session of meeting 11, used by the driver-chain check. -/
def sessOfMtgA : Session :=
  ⟨401, "Race", "Race", 110, some 120, "+00:00", 11, "L1", "C1", "Ctry1", 1, "Circ1", 2025⟩

/-- Session fetch for the driver-chain check: meeting 11 has exactly
`sessOfMtgA`. -/
def chainSessions : Nat → Except Unit (List Session) := fun k =>
  if k = 11 then .ok [sessOfMtgA] else .error ()

/-- Driver fetch for the driver-chain check: session 401 has the roster
`[drvA, drvB]`. -/
def chainDrivers : Nat → Except Unit (List Driver) := fun k =>
  if k = 401 then .ok [drvA, drvB] else .error ()

/-- The standings result of the concrete two-race scenario (with a dummy
record as the default of `Option.getD`; the run does succeed). -/
def scenResult : StandingsResult :=
  ((calculateStandingsFromRaces 2025 [scenRace1, scenRace2] 1000
    (.ok [drvA, drvB]) scenFetch).1).toOption.getD ⟨[], [], 0, 0, 0, 0⟩

/-- The fetch trace of the concrete two-race scenario. -/
def scenTrace : List FetchEv := [.rosterFetch, .positionsFetch 101, .positionsFetch 102]

/-- Eleven valid position entries with contiguous positions 1 to 11, one
driver each. -/
def contigPositions : List Position :=
  [⟨1, 1, 21, 201, 1⟩, ⟨2, 2, 21, 201, 2⟩, ⟨3, 3, 21, 201, 3⟩, ⟨4, 4, 21, 201, 4⟩,
   ⟨5, 5, 21, 201, 5⟩, ⟨6, 6, 21, 201, 6⟩, ⟨7, 7, 21, 201, 7⟩, ⟨8, 8, 21, 201, 8⟩,
   ⟨9, 9, 21, 201, 9⟩, ⟨10, 10, 21, 201, 10⟩, ⟨11, 11, 21, 201, 11⟩]

/-- The per-team aggregation invariant between a driver-keyed counter map
and a team-keyed counter map: every team counter equals the sum of the
counters of the roster drivers on that team. -/
def PairTeamSum (allDrivers : List Driver) (dp : Nat → Nat) (cp : String → Nat) : Prop :=
  ∀ team, cp team = ((allDrivers.filter (fun d => d.team_name == team)).map
    (fun d => dp d.driver_number)).sum

/-- The aggregation invariant for both counter pairs of the tallies. -/
def TalliesInv (allDrivers : List Driver) (t : Tallies) : Prop :=
  PairTeamSum allDrivers t.driverPoints t.constructorPoints ∧
  PairTeamSum allDrivers t.driverWins t.constructorWins

/-- Stability of the stable sort in filter form: restricting the sorted
output to a class of elements that are pairwise tied under `le` gives the
input restricted to that class, in input order. -/
theorem filter_mergeSort_eq {α : Type} {le : α → α → Bool}
    (trans : ∀ a b c, le a b = true → le b c = true → le a c = true)
    (total : ∀ a b, (le a b || le b a) = true)
    (c : α → Bool) (hcls : ∀ a b, c a = true → c b = true → le a b = true)
    (l : List α) : (l.mergeSort le).filter c = l.filter c := by
  have hfe : (l.filter c).filter c = l.filter c :=
    List.filter_eq_self.mpr (fun a ha => List.of_mem_filter ha)
  have hpw : (l.filter c).Pairwise (fun a b => le a b = true) :=
    List.pairwise_of_forall_mem_list
      (fun a ha b hb => hcls a b (List.of_mem_filter ha) (List.of_mem_filter hb))
  have hsub : (l.filter c).Sublist (l.mergeSort le) :=
    List.sublist_mergeSort trans total hpw (List.filter_sublist l)
  have hsub2 : (l.filter c).Sublist ((l.mergeSort le).filter c) := by
    have := List.Sublist.filter c hsub
    rwa [hfe] at this
  have hperm : ((l.mergeSort le).filter c).Perm (l.filter c) :=
    List.Perm.filter c (List.mergeSort_perm l le)
  exact (List.Sublist.eq_of_length hsub2 hperm.length_eq.symm).symm

/-- A property preserved by every step of a fold is preserved by the fold. -/
theorem foldl_preserves {β γ : Type} {P : β → Prop} {f : β → γ → β}
    (h : ∀ b a, P b → P (f b a)) : ∀ (l : List γ) (b : β), P b → P (l.foldl f b)
  | [], _, hb => hb
  | a :: rest, b, hb => foldl_preserves h rest (f b a) (h b a hb)

/-- In a list sorted nondecreasingly by `f`, the last element carries a
maximal `f` value. -/
theorem pairwise_getLast_max {α : Type} {f : α → Nat} :
    ∀ {l : List α} {x : α}, l.Pairwise (fun a b => f a ≤ f b) → l.getLast? = some x →
      ∀ y ∈ l, f y ≤ f x := by
  intro l
  induction l with
  | nil => intro x _ _ y hy; cases hy
  | cons a rest ih =>
    intro x hpw hlast y hy
    cases rest with
    | nil =>
      simp only [List.getLast?_singleton, Option.some.injEq] at hlast
      rcases List.mem_singleton.mp hy with rfl
      exact hlast ▸ Nat.le_refl _
    | cons b rest2 =>
      rw [List.getLast?_cons_cons] at hlast
      rcases List.mem_cons.mp hy with rfl | hy2
      · exact (List.rel_of_pairwise_cons hpw) (List.mem_of_getLast?_eq_some hlast)
      · exact ih hpw.of_cons hlast y hy2

/-- Membership in the first-occurrence dedup, relative to the seen set. -/
theorem mem_jsSetDedup {α : Type} [DecidableEq α] :
    ∀ (l : List α) (seen : List α) (x : α),
      x ∈ jsSetDedup seen l ↔ x ∈ l ∧ x ∉ seen := by
  intro l
  induction l with
  | nil => intro seen x; simp [jsSetDedup]
  | cons a rest ih =>
    intro seen x
    by_cases ha : a ∈ seen
    · simp only [jsSetDedup, if_pos ha, ih, List.mem_cons]
      constructor
      · rintro ⟨hr, hs⟩; exact ⟨Or.inr hr, hs⟩
      · rintro ⟨ax | hr, hs⟩
        · exact absurd (ax ▸ ha) hs
        · exact ⟨hr, hs⟩
    · simp only [jsSetDedup, if_neg ha, List.mem_cons, ih]
      by_cases hxa : x = a
      · subst hxa; simp [ha]
      · simp [hxa]

/-- The first-occurrence dedup never repeats an element. -/
theorem nodup_jsSetDedup {α : Type} [DecidableEq α] :
    ∀ (l : List α) (seen : List α), (jsSetDedup seen l).Nodup := by
  intro l
  induction l with
  | nil => intro seen; simp [jsSetDedup]
  | cons a rest ih =>
    intro seen
    by_cases ha : a ∈ seen
    · simpa [jsSetDedup, if_pos ha] using ih seen
    · simp only [jsSetDedup, if_neg ha]
      refine List.Pairwise.cons ?_ (ih (a :: seen))
      intro b hb hab
      have := (mem_jsSetDedup rest (a :: seen) b).mp hb
      exact this.2 (by subst hab; exact List.mem_cons_self a seen)

/-- The points table is antitone in the zero-based rank, counting every
rank past the end of the table as 0. -/
theorem f1_points_antitone : ∀ i j : Nat, i ≤ j →
    F1_POINTS_SYSTEM.getD j 0 ≤ F1_POINTS_SYSTEM.getD i 0 := by
  have hb : ∀ i : Fin 10, ∀ j : Fin 10, i ≤ j →
      F1_POINTS_SYSTEM.getD j.val 0 ≤ F1_POINTS_SYSTEM.getD i.val 0 := by decide
  intro i j hij
  by_cases hj : j < 10
  · exact hb ⟨i, Nat.lt_of_le_of_lt hij hj⟩ ⟨j, hj⟩ hij
  · have hlen : F1_POINTS_SYSTEM.length ≤ j := by
      simpa [F1_POINTS_SYSTEM] using Nat.le_of_not_lt hj
    rw [List.getD_eq_default _ _ hlen]
    exact Nat.zero_le _

/-- A rank is awarded zero points exactly when it is at least 10. -/
theorem f1_points_zero_iff : ∀ k : Nat, F1_POINTS_SYSTEM.getD k 0 = 0 ↔ 10 ≤ k := by
  have hb : ∀ k : Fin 10, ¬ F1_POINTS_SYSTEM.getD k.val 0 = 0 := by decide
  intro k
  by_cases hk : k < 10
  · constructor
    · intro h0; exact absurd h0 (hb ⟨k, hk⟩)
    · intro h10; exact absurd h10 (Nat.not_le_of_lt hk)
  · have hlen : F1_POINTS_SYSTEM.length ≤ k := by
      simpa [F1_POINTS_SYSTEM] using Nat.le_of_not_lt hk
    rw [List.getD_eq_default _ _ hlen]
    simp [Nat.le_of_not_lt hk]

/-- Arithmetic characterization of the standings comparator. -/
theorem standingsLE_iff (pa wa pb wb : Nat) :
    standingsLE pa wa pb wb = true ↔ (pb < pa ∨ (pa = pb ∧ wb ≤ wa)) := by
  by_cases h : pa = pb
  · subst h; simp [standingsLE]
  · simp [standingsLE, h]; omega

/-- The standings comparator is transitive. -/
theorem standingsLE_trans : ∀ pa wa pb wb pc wc : Nat,
    standingsLE pa wa pb wb = true → standingsLE pb wb pc wc = true →
    standingsLE pa wa pc wc = true := by
  intro pa wa pb wb pc wc h1 h2
  rw [standingsLE_iff] at h1 h2 ⊢
  omega

/-- The standings comparator is total. -/
theorem standingsLE_total : ∀ pa wa pb wb : Nat,
    (standingsLE pa wa pb wb || standingsLE pb wb pa wa) = true := by
  intro pa wa pb wb
  rw [Bool.or_eq_true, standingsLE_iff, standingsLE_iff]
  omega

/-- C6: within the TTL a second lookup of the same key is served from the
cache without invoking any producer and yields the value produced by the
first call; after the TTL has expired the producer runs again and its fresh
result is stored with the new timestamp. -/
theorem cache_idempotence_within_ttl {α : Type} (cache : CacheMap α) (key : String)
    (t0 t1 t2 : Nat) (v v2 : α) (f2 : Except Unit α)
    (hmiss : cache key = none)
    (hfresh : t1 - t0 < CACHE_DURATION)
    (hstale : CACHE_DURATION ≤ t2 - t0) :
    getCachedOrFetch t0 cache key (.ok v) = (.ok v, cacheSet cache key ⟨v, t0⟩, true) ∧
    getCachedOrFetch t1 (cacheSet cache key ⟨v, t0⟩) key f2 =
      (.ok v, cacheSet cache key ⟨v, t0⟩, false) ∧
    getCachedOrFetch t2 (cacheSet cache key ⟨v, t0⟩) key (.ok v2) =
      (.ok v2, cacheSet (cacheSet cache key ⟨v, t0⟩) key ⟨v2, t2⟩, true) := by
  refine ⟨?_, ?_, ?_⟩
  · simp [getCachedOrFetch, hmiss]
  · simp [getCachedOrFetch, cacheSet, hfresh]
  · simp [getCachedOrFetch, cacheSet, Nat.not_lt.mpr hstale]

/-- Concrete instance of `cache_idempotence_within_ttl` on an empty cache
with producer value 1, second read at time 1, expiry read at the TTL
boundary. -/
theorem cache_idempotence_within_ttl_witness :
    getCachedOrFetch 0 (fun _ => none) "k" (.ok 1) =
      (.ok 1, cacheSet (fun _ => none) "k" ⟨1, 0⟩, true) ∧
    getCachedOrFetch 1 (cacheSet (fun _ => none) "k" ⟨1, 0⟩) "k" (.error ()) =
      (.ok 1, cacheSet (fun _ => none) "k" ⟨1, 0⟩, false) ∧
    getCachedOrFetch 900000 (cacheSet (fun _ => none) "k" ⟨1, 0⟩) "k" (.ok 2) =
      (.ok 2, cacheSet (cacheSet (fun _ => none) "k" ⟨1, 0⟩) "k" ⟨2, 900000⟩, true) :=
  cache_idempotence_within_ttl (fun _ => none) "k" 0 1 900000 1 2 (.error ())
    rfl (by decide) (by decide)

/-- C7: when the key has no fresh entry and the producer rejects, the
rejection is returned, the producer counts as invoked, the whole cache map
is unchanged, and a later lookup of the key invokes its producer again. -/
theorem cache_failure_not_memoized {α : Type} (cache : CacheMap α) (key : String)
    (now now2 : Nat) (f2 : Except Unit α)
    (hnofresh : ∀ e, cache key = some e → CACHE_DURATION ≤ now - e.timestamp)
    (hmono : now ≤ now2) :
    getCachedOrFetch now cache key (.error ()) = (.error (), cache, true) ∧
    (getCachedOrFetch now2 cache key f2).2.2 = true := by
  cases hk : cache key with
  | none =>
    refine ⟨by simp [getCachedOrFetch, hk], ?_⟩
    cases f2 <;> simp [getCachedOrFetch, hk]
  | some e =>
    have h1 : CACHE_DURATION ≤ now - e.timestamp := hnofresh e hk
    have h2 : CACHE_DURATION ≤ now2 - e.timestamp :=
      Nat.le_trans h1 (Nat.sub_le_sub_right hmono _)
    refine ⟨by simp [getCachedOrFetch, hk, Nat.not_lt.mpr h1], ?_⟩
    cases f2 <;> simp [getCachedOrFetch, hk, Nat.not_lt.mpr h2]

/-- Concrete instance of `cache_failure_not_memoized` on an empty cache. -/
theorem cache_failure_not_memoized_witness :
    getCachedOrFetch 5 (fun _ => none) "k" (Except.error ()) =
      (.error (), (fun _ => none : CacheMap Nat), true) ∧
    (getCachedOrFetch 6 (fun _ => none : CacheMap Nat) "k" (.ok 3)).2.2 = true :=
  cache_failure_not_memoized (fun _ => none) "k" 5 6 (.ok 3)
    (fun e he => by simp at he) (by decide)

/-- One dispatch of the rate limiter never happens earlier than
`MIN_API_INTERVAL` after the recorded previous dispatch. -/
theorem rateLimitedApiCall_dispatch_lb {ε α : Type} (last now : Nat) (call : Except ε α) :
    last + MIN_API_INTERVAL ≤ (rateLimitedApiCall last now call).2 := by
  simp only [rateLimitedApiCall]
  split
  · exact Nat.le_refl _
  · exact Nat.le_of_not_lt (by assumption)

/-- C8: across any sequence of calls through the rate limiter, every call
returns its thunk result unchanged, consecutive dispatch timestamps are at
least `MIN_API_INTERVAL` apart, and a first call arriving at or after
`MIN_API_INTERVAL` on the initial state (`lastApiCall = 0`) is dispatched
immediately at its arrival time. -/
theorem rate_limiter_spacing {ε α : Type} :
    (∀ (last : Nat) (calls : List (Nat × Except ε α)),
      (runRateLimited last calls).map (fun r => r.1) = calls.map (fun c => c.2)) ∧
    (∀ (last : Nat) (calls : List (Nat × Except ε α)),
      ((runRateLimited last calls).map (fun r => r.2)).Chain'
        (fun d1 d2 => d1 + MIN_API_INTERVAL ≤ d2)) ∧
    (∀ (t : Nat) (call : Except ε α), MIN_API_INTERVAL ≤ t →
      rateLimitedApiCall 0 t call = (call, t)) := by
  refine ⟨?_, ?_, ?_⟩
  · intro last calls
    induction calls generalizing last with
    | nil => rfl
    | cons c rest ih =>
      obtain ⟨now, call⟩ := c
      simp only [runRateLimited, List.map_cons, List.map]
      exact congrArg _ (ih _)
  · intro last calls
    induction calls generalizing last with
    | nil => simp [runRateLimited]
    | cons c rest ih =>
      obtain ⟨now, call⟩ := c
      simp only [runRateLimited, List.map_cons]
      rw [List.chain'_cons']
      refine ⟨?_, ih _⟩
      intro d2 hd2
      cases rest with
      | nil => simp [runRateLimited] at hd2
      | cons c2 rest2 =>
        obtain ⟨now2, call2⟩ := c2
        simp only [runRateLimited, List.map_cons, List.head?_cons, Option.mem_def,
          Option.some.injEq] at hd2
        subst hd2
        exact rateLimitedApiCall_dispatch_lb _ _ _
  · intro t call ht
    simp [rateLimitedApiCall, Nat.not_lt.mpr (by simpa using ht)]

/-- Concrete instance of `rate_limiter_spacing`: a first call arriving at
clock value 350 on a fresh limiter is dispatched at 350 with its result
unchanged. -/
theorem rate_limiter_spacing_witness :
    rateLimitedApiCall 0 350 (Except.ok 1 : Except Unit Nat) = (Except.ok 1, 350) :=
  (rate_limiter_spacing (ε := Unit) (α := Nat)).2.2 350 (Except.ok 1) (by decide)

/-- C5: the year-scoped driver lookup succeeds exactly by fetching the
meetings of the year, taking the last meeting, fetching its sessions,
taking the last session and fetching the drivers of that session; any
failure along the chain yields the single drivers fetch error and no
partial result; and under chronological input order the last meeting and
last session are chronologically maximal. -/
theorem drivers_chain_correct
    (meetingsRes : Except Unit (List Meeting))
    (sessionsByMeeting : Nat → Except Unit (List Session))
    (driversBySession : Nat → Except Unit (List Driver)) :
    (∀ ds, getDrivers meetingsRes sessionsByMeeting driversBySession = .ok ds →
      ∃ ms m ss s, meetingsRes = .ok ms ∧ ms.getLast? = some m ∧
        sessionsByMeeting m.meeting_key = .ok ss ∧ ss.getLast? = some s ∧
        driversBySession s.session_key = .ok ds) ∧
    ((∃ ds, getDrivers meetingsRes sessionsByMeeting driversBySession = .ok ds) ∨
      getDrivers meetingsRes sessionsByMeeting driversBySession =
        .error .driversFetchFailed) ∧
    (∀ ms m, meetingsRes = .ok ms → ms.getLast? = some m →
      ms.Pairwise (fun a b => a.date_start ≤ b.date_start) →
      ∀ m2 ∈ ms, m2.date_start ≤ m.date_start) ∧
    (∀ ms m ss s, meetingsRes = .ok ms → ms.getLast? = some m →
      sessionsByMeeting m.meeting_key = .ok ss → ss.getLast? = some s →
      ss.Pairwise (fun a b => a.date_start ≤ b.date_start) →
      ∀ s2 ∈ ss, s2.date_start ≤ s.date_start) := by
  refine ⟨?_, ?_, ?_, ?_⟩
  · intro ds hok
    cases hm : meetingsRes with
    | error e => simp [getDrivers, hm] at hok
    | ok ms =>
      cases hlast : ms.getLast? with
      | none => simp [getDrivers, hm, hlast] at hok
      | some m =>
        cases hss : sessionsByMeeting m.meeting_key with
        | error e => simp [getDrivers, hm, hlast, hss] at hok
        | ok ss =>
          cases hslast : ss.getLast? with
          | none => simp [getDrivers, hm, hlast, hss, hslast] at hok
          | some s =>
            cases hds : driversBySession s.session_key with
            | error e => simp [getDrivers, hm, hlast, hss, hslast, hds] at hok
            | ok ds2 =>
              refine ⟨ms, m, ss, s, rfl, hlast, hss, hslast, ?_⟩
              simp only [getDrivers, hm, hlast, hss, hslast, hds, Except.ok.injEq] at hok
              exact hok ▸ hds
  · cases hm : meetingsRes with
    | error e => exact Or.inr (by simp [getDrivers])
    | ok ms =>
      cases hlast : ms.getLast? with
      | none => exact Or.inr (by simp [getDrivers, hlast])
      | some m =>
        cases hss : sessionsByMeeting m.meeting_key with
        | error e => exact Or.inr (by simp [getDrivers, hlast, hss])
        | ok ss =>
          cases hslast : ss.getLast? with
          | none => exact Or.inr (by simp [getDrivers, hlast, hss, hslast])
          | some s =>
            cases hds : driversBySession s.session_key with
            | error e => exact Or.inr (by simp [getDrivers, hlast, hss, hslast, hds])
            | ok ds => exact Or.inl ⟨ds, by simp [getDrivers, hlast, hss, hslast, hds]⟩
  · intro ms m _ hlast hpw m2 hm2
    exact pairwise_getLast_max hpw hlast m2 hm2
  · intro ms m ss s _ _ _ hslast hpw s2 hs2
    exact pairwise_getLast_max hpw hslast s2 hs2

/-- Concrete instance of `drivers_chain_correct`: a one-meeting,
one-session chain returns the roster of that session, and the chain
components are exactly the last meeting and last session. -/
theorem drivers_chain_correct_witness :
    (∃ ms m ss s, (Except.ok [mtgA] : Except Unit (List Meeting)) = .ok ms ∧
      ms.getLast? = some m ∧ chainSessions m.meeting_key = .ok ss ∧
      ss.getLast? = some s ∧ chainDrivers s.session_key = .ok [drvA, drvB]) ∧
    getDrivers (.ok [mtgA]) chainSessions chainDrivers = .ok [drvA, drvB] :=
  ⟨(drivers_chain_correct (.ok [mtgA]) chainSessions chainDrivers).1 [drvA, drvB] rfl,
   rfl⟩

/-- C4: `calculateStandings` fails with the no-race-sessions error exactly
when the race-only filter of the sessions of the year is empty, and in that
case the run performs no roster fetch and no positions fetch. -/
theorem no_race_sessions_error_iff
    (year : Nat) (yearSessions : List Session) (now : Nat)
    (rosterRes : Except Unit (List Driver)) (fetch : Nat → Except Unit (List Position)) :
    ((calculateStandings year yearSessions now rosterRes fetch).1 =
        .error (.noRaceSessions year) ↔ getRaceSessionsByYear yearSessions = []) ∧
    (getRaceSessionsByYear yearSessions = [] →
      (calculateStandings year yearSessions now rosterRes fetch).2 = []) := by
  by_cases hrs : getRaceSessionsByYear yearSessions = []
  · refine ⟨⟨fun _ => hrs, fun _ => ?_⟩, fun _ => ?_⟩ <;>
      simp [calculateStandings, calculateStandingsFromRaces, hrs]
  · refine ⟨⟨fun habs => absurd ?_ hrs, fun h => absurd h hrs⟩, fun h => absurd h hrs⟩
    rw [calculateStandings, calculateStandingsFromRaces] at habs
    rw [if_neg (by simpa [List.isEmpty_iff] using hrs)] at habs
    cases rosterRes with
    | error e => simp at habs
    | ok roster => simp at habs

/-- Concrete instance of `no_race_sessions_error_iff`: a year whose only
session is a qualifying session has an empty race filter, so the run fails
with the no-race-sessions error and performs no fetch at all. -/
theorem no_race_sessions_error_iff_witness :
    ((calculateStandings 2025 [qualSession] 1000 (.ok [drvA]) scenFetch).1 =
      .error (.noRaceSessions 2025)) ∧
    (calculateStandings 2025 [qualSession] 1000 (.ok [drvA]) scenFetch).2 = [] :=
  ⟨(no_race_sessions_error_iff 2025 [qualSession] 1000 (.ok [drvA]) scenFetch).1.mpr
     (by decide),
   (no_race_sessions_error_iff 2025 [qualSession] 1000 (.ok [drvA]) scenFetch).2
     (by decide)⟩

/-- A completed race whose position fetch rejects or returns the empty
list leaves the tallies untouched. -/
theorem processRace_skip (allDrivers : List Driver)
    (fetch : Nat → Except Unit (List Position)) (t : Tallies) (bad : Session)
    (h : fetch bad.session_key = .error () ∨ fetch bad.session_key = .ok []) :
    processRace allDrivers fetch t bad = t := by
  rcases h with h | h <;> simp [processRace, h]

/-- C3: if one completed race session in the season rejects its position
fetch or yields no positions, the whole computation still succeeds and its
driver and constructor standings are exactly those computed with that race
absent; only the race counters differ. -/
theorem single_race_failure_recoverable
    (year : Nat) (s1 s2 : List Session) (bad : Session) (now : Nat)
    (roster : List Driver) (fetch : Nat → Except Unit (List Position))
    (hcomp : isCompleted now bad = true)
    (hbad : fetch bad.session_key = .error () ∨ fetch bad.session_key = .ok [])
    (hne : s1 ++ s2 ≠ []) :
    ∃ res res2,
      (calculateStandingsFromRaces year (s1 ++ bad :: s2) now (.ok roster) fetch).1 =
        .ok res ∧
      (calculateStandingsFromRaces year (s1 ++ s2) now (.ok roster) fetch).1 = .ok res2 ∧
      res.drivers = res2.drivers ∧ res.constructors = res2.constructors := by
  have htal : raceTallies roster fetch ((s1 ++ bad :: s2).filter (isCompleted now)) =
      raceTallies roster fetch ((s1 ++ s2).filter (isCompleted now)) := by
    rw [List.filter_append, List.filter_append, List.filter_cons, if_pos hcomp]
    unfold raceTallies
    rw [List.foldl_append, List.foldl_append, List.foldl_cons,
      processRace_skip roster fetch _ bad hbad]
  have e1 : ¬ ((s1 ++ bad :: s2).isEmpty = true) := by simp
  have e2 : ¬ ((s1 ++ s2).isEmpty = true) := by simpa [List.isEmpty_iff] using hne
  refine ⟨
    { drivers := (attachAll roster
        (raceTallies roster fetch ((s1 ++ s2).filter (isCompleted now)))).mergeSort driverLE
      constructors := ((jsSetList (roster.map (fun d => d.team_name))).map
        (constructorEntry roster
          (raceTallies roster fetch ((s1 ++ s2).filter (isCompleted now))))).mergeSort
            constructorLE
      totalRaces := (s1 ++ bad :: s2).length
      completedRaces := ((s1 ++ bad :: s2).filter (isCompleted now)).length
      upcomingRaces := (s1 ++ bad :: s2).length -
        ((s1 ++ bad :: s2).filter (isCompleted now)).length
      lastUpdated := now },
    { drivers := (attachAll roster
        (raceTallies roster fetch ((s1 ++ s2).filter (isCompleted now)))).mergeSort driverLE
      constructors := ((jsSetList (roster.map (fun d => d.team_name))).map
        (constructorEntry roster
          (raceTallies roster fetch ((s1 ++ s2).filter (isCompleted now))))).mergeSort
            constructorLE
      totalRaces := (s1 ++ s2).length
      completedRaces := ((s1 ++ s2).filter (isCompleted now)).length
      upcomingRaces := (s1 ++ s2).length - ((s1 ++ s2).filter (isCompleted now)).length
      lastUpdated := now },
    ?_, ?_, rfl, rfl⟩
  · simp only [calculateStandingsFromRaces, if_neg e1]
    rw [htal]
  · simp only [calculateStandingsFromRaces, if_neg e2]

/-- Concrete instance of `single_race_failure_recoverable`: race 101
succeeds, race 102 rejects, and the two-race run agrees with the one-race
run on drivers and constructors. -/
theorem single_race_failure_recoverable_witness :
    isCompleted 1000 scenRace2 = true ∧
    ∃ res res2,
      (calculateStandingsFromRaces 2025 ([scenRace1] ++ scenRace2 :: []) 1000
        (.ok [drvA, drvB]) scenFetchBad).1 = .ok res ∧
      (calculateStandingsFromRaces 2025 ([scenRace1] ++ []) 1000
        (.ok [drvA, drvB]) scenFetchBad).1 = .ok res2 ∧
      res.drivers = res2.drivers ∧ res.constructors = res2.constructors :=
  ⟨by decide,
   single_race_failure_recoverable 2025 [scenRace1] [] scenRace2 1000 [drvA, drvB]
     scenFetchBad (by decide) (Or.inl rfl) (by decide)⟩

/-- The driver-row comparator is transitive. -/
theorem driverLE_trans (a b c : DriverStandingEntry) :
    driverLE a b = true → driverLE b c = true → driverLE a c = true :=
  standingsLE_trans a.points a.wins b.points b.wins c.points c.wins

/-- The driver-row comparator is total. -/
theorem driverLE_total (a b : DriverStandingEntry) :
    (driverLE a b || driverLE b a) = true :=
  standingsLE_total a.points a.wins b.points b.wins

/-- The constructor-row comparator is transitive. -/
theorem constructorLE_trans (a b c : ConstructorStandingsEntry) :
    constructorLE a b = true → constructorLE b c = true → constructorLE a c = true :=
  standingsLE_trans a.points a.wins b.points b.wins c.points c.wins

/-- The constructor-row comparator is total. -/
theorem constructorLE_total (a b : ConstructorStandingsEntry) :
    (constructorLE a b || constructorLE b a) = true :=
  standingsLE_total a.points a.wins b.points b.wins

unseal List.merge List.mergeSort in
/-- C1: in any successful standings computation, the drivers sharing a
given points total and win count appear in the output as a sublist of the
input roster, hence in roster order; and in the concrete two-race scenario
driver 1 and driver 2 both end at 43 points and 1 win, with driver 1 listed
first because it precedes driver 2 in the roster. -/
theorem standings_tie_stability :
    (∀ (year : Nat) (races : List Session) (now : Nat) (roster : List Driver)
       (fetch : Nat → Except Unit (List Position)) (res : StandingsResult)
       (trace : List FetchEv) (p w : Nat),
      calculateStandingsFromRaces year races now (.ok roster) fetch = (.ok res, trace) →
      ((res.drivers.filter (fun d => d.points == p && d.wins == w)).map
        (fun d => d.driver)).Sublist roster) ∧
    ((calculateStandingsFromRaces 2025 [scenRace1, scenRace2] 1000
        (.ok [drvA, drvB]) scenFetch).1.toOption.map
      (fun r => r.drivers.map (fun d => (d.driver.driver_number, d.points, d.wins))) =
      some [(1, 43, 1), (2, 43, 1)]) := by
  constructor
  · intro year races now roster fetch res trace p w hok
    by_cases hemp : races.isEmpty = true
    · simp [calculateStandingsFromRaces, hemp] at hok
    · simp only [calculateStandingsFromRaces, if_neg hemp, Prod.mk.injEq,
        Except.ok.injEq] at hok
      obtain ⟨hres, -⟩ := hok
      subst hres
      dsimp only
      have hcls : ∀ a b : DriverStandingEntry,
          (a.points == p && a.wins == w) = true → (b.points == p && b.wins == w) = true →
          driverLE a b = true := by
        intro a b ha hb
        simp only [Bool.and_eq_true, beq_iff_eq] at ha hb
        rw [driverLE, standingsLE_iff]
        omega
      rw [filter_mergeSort_eq driverLE_trans driverLE_total _ hcls]
      rw [attachAll, List.filter_map, List.map_map]
      have hid : ((fun d : DriverStandingEntry => d.driver) ∘
          (fun d : Driver => (⟨d, (raceTallies roster fetch
            (races.filter (isCompleted now))).driverPoints d.driver_number,
            (raceTallies roster fetch
              (races.filter (isCompleted now))).driverWins d.driver_number⟩ :
                DriverStandingEntry))) = fun d => d := rfl
      rw [hid, List.map_id']
      exact List.filter_sublist roster
  · rfl

unseal List.merge List.mergeSort in
/-- Concrete instance of `standings_tie_stability`: in the two-race
scenario the class of drivers at 43 points and 1 win, read off the output,
is a sublist of the roster `[drvA, drvB]`. -/
theorem standings_tie_stability_witness :
    ((scenResult.drivers.filter (fun d => d.points == 43 && d.wins == 1)).map
      (fun d => d.driver)).Sublist [drvA, drvB] :=
  standings_tie_stability.1 2025 [scenRace1, scenRace2] 1000 [drvA, drvB] scenFetch
    scenResult scenTrace 43 1 rfl

/-- The sorted valid position list of a race is sorted by the `position`
field. -/
theorem sortedValidPositions_pairwise (positions : List Position) :
    (sortedValidPositions positions).Pairwise
      (fun a b => decide (a.position ≤ b.position) = true) := by
  refine List.sorted_mergeSort ?_ ?_ _
  · intro a b c hab hbc
    simp only [decide_eq_true_eq] at hab hbc ⊢
    exact le_trans hab hbc
  · intro a b
    simp only [Bool.or_eq_true, decide_eq_true_eq]
    exact Int.le_total a.position b.position

unseal List.merge List.mergeSort in
/-- C2 (counterexample to the claim as stated): in a completed race whose
only valid position entry is driver 1 at finishing position 11, the code
awards that entry rank 0 of the points table, so the driver receives 25
points rather than 0. -/
theorem points_position_gap_cex :
    (processRace [drvA] gapFetch initTallies gapRace).driverPoints 1 = 25 ∧
    (25 : Nat) ≠ 0 := ⟨rfl, by decide⟩

/-- C2 (amended): points are awarded by zero-based rank in the sorted valid
position list. Monotonicity holds as claimed: an entry with a smaller
`position` value never earns fewer points than an entry with a larger one.
A rank earns 0 exactly when it is at least 10; consequently a finishing
position greater than 10 earns 0 whenever the valid positions are exactly
1..N, but not for position lists with gaps. -/
theorem points_rank_monotone (positions : List Position) :
    (∀ (i j : Fin (sortedValidPositions positions).length),
        ((sortedValidPositions positions).get i).position <
          ((sortedValidPositions positions).get j).position →
        F1_POINTS_SYSTEM.getD j.val 0 ≤ F1_POINTS_SYSTEM.getD i.val 0) ∧
    (∀ k : Nat, F1_POINTS_SYSTEM.getD k 0 = 0 ↔ 10 ≤ k) ∧
    ((∀ j : Fin (sortedValidPositions positions).length,
        ((sortedValidPositions positions).get j).position = j.val + 1) →
      ∀ i : Fin (sortedValidPositions positions).length,
        10 < ((sortedValidPositions positions).get i).position →
        F1_POINTS_SYSTEM.getD i.val 0 = 0) := by
  have hget := List.pairwise_iff_get.mp (sortedValidPositions_pairwise positions)
  refine ⟨?_, f1_points_zero_iff, ?_⟩
  · intro i j hlt
    rcases lt_trichotomy i j with hij | hij | hij
    · exact f1_points_antitone i.val j.val (Nat.le_of_lt hij)
    · rw [hij] at hlt
      exact absurd hlt (lt_irrefl _)
    · have := hget j i hij
      simp only [decide_eq_true_eq] at this
      exact absurd hlt (not_lt_of_le this)
  · intro hcont i hpos
    rw [hcont i] at hpos
    refine (f1_points_zero_iff i.val).mpr ?_
    omega

unseal List.merge List.mergeSort in
/-- Concrete instance of `points_rank_monotone`: in the two-entry race the
position-2 entry earns at most the position-1 entry (18 versus 25), and in
the contiguous 11-entry race the entry at position 11 sits at rank 10 and
earns 0. -/
theorem points_rank_monotone_witness :
    F1_POINTS_SYSTEM.getD 1 0 ≤ F1_POINTS_SYSTEM.getD 0 0 ∧
    F1_POINTS_SYSTEM.getD 10 0 = 0 :=
  ⟨(points_rank_monotone [⟨1, 1, 11, 101, 1⟩, ⟨2, 2, 11, 101, 2⟩]).1
      ⟨0, by decide⟩ ⟨1, by decide⟩ (by decide),
   (points_rank_monotone contigPositions).2.2 (by decide) ⟨10, by decide⟩ (by decide)⟩

/-- Keys appearing in the circuit dedup output: exactly the meeting keys
not yet seen. -/
theorem mem_key_circuitsDedup :
    ∀ (l : List Meeting) (seen : List Nat) (k : Nat),
      k ∈ (circuitsDedup seen l).map (fun c => c.circuit_key) ↔
        k ∈ l.map (fun m => m.circuit_key) ∧ k ∉ seen := by
  intro l
  induction l with
  | nil => intro seen k; simp [circuitsDedup]
  | cons m rest ih =>
    intro seen k
    by_cases h : m.circuit_key ∈ seen
    · simp only [circuitsDedup, if_pos h, ih, List.map_cons, List.mem_cons]
      constructor
      · rintro ⟨hr, hs⟩; exact ⟨Or.inr hr, hs⟩
      · rintro ⟨hk | hr, hs⟩
        · exact absurd (hk ▸ h) hs
        · exact ⟨hr, hs⟩
    · simp only [circuitsDedup, if_neg h, List.map_cons, List.mem_cons, ih,
        circuitOfMeeting]
      by_cases hk : k = m.circuit_key
      · subst hk; simp [h]
      · simp [hk]

/-- Every circuit in the dedup output is the projection of the first
meeting in the input that carries its key. -/
theorem circuitsDedup_first :
    ∀ (l : List Meeting) (seen : List Nat), ∀ c ∈ circuitsDedup seen l,
      ∃ m, l.find? (fun m2 => m2.circuit_key == c.circuit_key) = some m ∧
        c = circuitOfMeeting m := by
  intro l
  induction l with
  | nil => intro seen c hc; simp [circuitsDedup] at hc
  | cons m rest ih =>
    intro seen c hc
    by_cases h : m.circuit_key ∈ seen
    · rw [circuitsDedup, if_pos h] at hc
      obtain ⟨m2, hfind, hcm⟩ := ih seen c hc
      have hkc : c.circuit_key ∉ seen := by
        have : c.circuit_key ∈ (circuitsDedup seen rest).map (fun c => c.circuit_key) :=
          List.mem_map_of_mem _ hc
        exact ((mem_key_circuitsDedup rest seen c.circuit_key).mp this).2
      have hne : (m.circuit_key == c.circuit_key) = false := by
        simp only [beq_eq_false_iff_ne, ne_eq]
        intro heq; exact hkc (heq ▸ h)
      refine ⟨m2, ?_, hcm⟩
      rw [List.find?_cons, hne]
      exact hfind
    · rw [circuitsDedup, if_neg h] at hc
      rcases List.mem_cons.mp hc with rfl | hc2
      · refine ⟨m, ?_, rfl⟩
        rw [List.find?_cons]
        simp [circuitOfMeeting]
      · obtain ⟨m2, hfind, hcm⟩ := ih (m.circuit_key :: seen) c hc2
        have hkc : c.circuit_key ∉ m.circuit_key :: seen := by
          have : c.circuit_key ∈
              (circuitsDedup (m.circuit_key :: seen) rest).map (fun c => c.circuit_key) :=
            List.mem_map_of_mem _ hc2
          exact ((mem_key_circuitsDedup rest _ c.circuit_key).mp this).2
        have hne : (m.circuit_key == c.circuit_key) = false := by
          simp only [beq_eq_false_iff_ne, ne_eq]
          intro heq
          exact hkc (heq ▸ List.mem_cons_self _ _)
        refine ⟨m2, ?_, hcm⟩
        rw [List.find?_cons, hne]
        exact hfind

/-- The circuit dedup output lists keys in strictly increasing order of
first occurrence in the input meetings list. -/
theorem circuitsDedup_pairwise_indexOf :
    ∀ (l : List Meeting) (seen : List Nat),
      (circuitsDedup seen l).Pairwise (fun c1 c2 =>
        (l.map (fun m => m.circuit_key)).indexOf c1.circuit_key <
          (l.map (fun m => m.circuit_key)).indexOf c2.circuit_key) := by
  intro l
  induction l with
  | nil => intro seen; simp [circuitsDedup]
  | cons m rest ih =>
    intro seen
    have hshift : ∀ c : Circuit, c ∈ circuitsDedup (m.circuit_key :: seen) rest ∨
        (c ∈ circuitsDedup seen rest ∧ m.circuit_key ∈ seen) →
        ((m :: rest).map (fun m2 => m2.circuit_key)).indexOf c.circuit_key =
          (rest.map (fun m2 => m2.circuit_key)).indexOf c.circuit_key + 1 := by
      intro c hc
      have hne : c.circuit_key ≠ m.circuit_key := by
        rcases hc with hc | ⟨hc, hm⟩
        · have : c.circuit_key ∈
              (circuitsDedup (m.circuit_key :: seen) rest).map (fun c2 => c2.circuit_key) :=
            List.mem_map_of_mem _ hc
          have := ((mem_key_circuitsDedup rest _ c.circuit_key).mp this).2
          intro heq; exact this (heq ▸ List.mem_cons_self _ _)
        · have : c.circuit_key ∈
              (circuitsDedup seen rest).map (fun c2 => c2.circuit_key) :=
            List.mem_map_of_mem _ hc
          have := ((mem_key_circuitsDedup rest _ c.circuit_key).mp this).2
          intro heq; exact this (heq ▸ hm)
      simp only [List.map_cons]
      exact List.indexOf_cons_ne _ (Ne.symm hne)
    by_cases h : m.circuit_key ∈ seen
    · rw [circuitsDedup, if_pos h]
      refine (ih seen).imp_of_mem ?_
      intro c1 c2 h1 h2 hlt
      rw [hshift c1 (Or.inr ⟨h1, h⟩), hshift c2 (Or.inr ⟨h2, h⟩)]
      exact Nat.succ_lt_succ hlt
    · rw [circuitsDedup, if_neg h]
      refine List.Pairwise.cons ?_ ?_
      · intro c2 hc2
        have h0 : ((m :: rest).map (fun m2 => m2.circuit_key)).indexOf
            (circuitOfMeeting m).circuit_key = 0 := by
          simp only [List.map_cons, circuitOfMeeting]
          exact List.indexOf_cons_self _ _
        rw [h0, hshift c2 (Or.inl hc2)]
        exact Nat.succ_pos _
      · refine (ih (m.circuit_key :: seen)).imp_of_mem ?_
        intro c1 c2 h1 h2 hlt
        rw [hshift c1 (Or.inl h1), hshift c2 (Or.inl h2)]
        exact Nat.succ_lt_succ hlt

/-- The circuit dedup output is the projection of a sublist of the input
meetings. -/
theorem circuitsDedup_sublist_image :
    ∀ (l : List Meeting) (seen : List Nat),
      ∃ l2 : List Meeting, l2.Sublist l ∧ circuitsDedup seen l = l2.map circuitOfMeeting := by
  intro l
  induction l with
  | nil => intro seen; exact ⟨[], List.Sublist.refl _, rfl⟩
  | cons m rest ih =>
    intro seen
    by_cases h : m.circuit_key ∈ seen
    · obtain ⟨l2, hsub, heq⟩ := ih seen
      exact ⟨l2, hsub.cons m, by rw [circuitsDedup, if_pos h]; exact heq⟩
    · obtain ⟨l2, hsub, heq⟩ := ih (m.circuit_key :: seen)
      exact ⟨m :: l2, hsub.cons₂ m, by rw [circuitsDedup, if_neg h, heq]; rfl⟩

unseal List.merge List.mergeSort in
/-- C9 (counterexample to the claim as stated): on the meetings list
`[mtgA, mtgB]` (circuit keys 1 then 2, dates 100 then 50),
`getCircuitsByYear` re-sorts the deduplicated circuits by date and returns
keys `[2, 1]`, so its circuits do not appear in first-occurrence insertion
order of the meetings list. -/
theorem circuits_order_cex :
    (getCircuitsByYear [mtgA, mtgB]).map (fun c => c.circuit_key) = [2, 1] ∧
    ¬ ((getCircuitsByYear [mtgA, mtgB]).Pairwise (fun c1 c2 =>
        ([mtgA, mtgB].map (fun m => m.circuit_key)).indexOf c1.circuit_key <
          ([mtgA, mtgB].map (fun m => m.circuit_key)).indexOf c2.circuit_key)) := by
  constructor
  · rfl
  · decide

/-- C9 (amended): both circuit derivations keep exactly one circuit per
`circuit_key`, projected from the first meeting bearing that key, and cover
exactly the keys of the input meetings. `getCircuits` lists them in
first-occurrence insertion order of the meetings list; `getCircuitsByYear`
re-sorts the list by `date_start` and therefore preserves that order only
when the meetings list is chronologically ordered, in which case it equals
`getCircuits`. -/
theorem circuits_dedup_first_occurrence (meetings : List Meeting) :
    ((getCircuits meetings).map (fun c => c.circuit_key)).Nodup ∧
    (∀ k, k ∈ (getCircuits meetings).map (fun c => c.circuit_key) ↔
      k ∈ meetings.map (fun m => m.circuit_key)) ∧
    (∀ c ∈ getCircuits meetings, ∃ m,
      meetings.find? (fun m2 => m2.circuit_key == c.circuit_key) = some m ∧
      c = circuitOfMeeting m) ∧
    ((getCircuits meetings).Pairwise (fun c1 c2 =>
      (meetings.map (fun m => m.circuit_key)).indexOf c1.circuit_key <
        (meetings.map (fun m => m.circuit_key)).indexOf c2.circuit_key)) ∧
    ((getCircuitsByYear meetings).map (fun c => c.circuit_key)).Nodup ∧
    (∀ k, k ∈ (getCircuitsByYear meetings).map (fun c => c.circuit_key) ↔
      k ∈ meetings.map (fun m => m.circuit_key)) ∧
    (∀ c ∈ getCircuitsByYear meetings, ∃ m,
      meetings.find? (fun m2 => m2.circuit_key == c.circuit_key) = some m ∧
      c = circuitOfMeeting m) ∧
    (meetings.Pairwise (fun a b => a.date_start ≤ b.date_start) →
      getCircuitsByYear meetings = getCircuits meetings) := by
  have horder := circuitsDedup_pairwise_indexOf meetings []
  have hmem : ∀ k, k ∈ (getCircuits meetings).map (fun c => c.circuit_key) ↔
      k ∈ meetings.map (fun m => m.circuit_key) := by
    intro k
    rw [getCircuits, mem_key_circuitsDedup meetings [] k]
    simp
  have hfst : ∀ c ∈ getCircuits meetings, ∃ m,
      meetings.find? (fun m2 => m2.circuit_key == c.circuit_key) = some m ∧
      c = circuitOfMeeting m := circuitsDedup_first meetings []
  have hnd : ((getCircuits meetings).map (fun c => c.circuit_key)).Nodup := by
    refine List.pairwise_map.mpr ?_
    refine horder.imp ?_
    intro a b hlt heq
    rw [heq] at hlt
    exact lt_irrefl _ hlt
  have hperm : (getCircuitsByYear meetings).Perm (getCircuits meetings) :=
    List.mergeSort_perm (getCircuits meetings) circuitLE
  refine ⟨hnd, hmem, hfst, horder, ?_, ?_, ?_, ?_⟩
  · exact ((hperm.map (fun c => c.circuit_key)).nodup_iff).mpr hnd
  · intro k
    exact ((hperm.map (fun c => c.circuit_key)).mem_iff).trans (hmem k)
  · intro c hc
    exact hfst c (hperm.mem_iff.mp hc)
  · intro hsort
    obtain ⟨l2, hsub, heq⟩ := circuitsDedup_sublist_image meetings []
    have hpw : (getCircuits meetings).Pairwise (fun a b => circuitLE a b = true) := by
      rw [getCircuits, heq]
      refine List.pairwise_map.mpr ?_
      refine (List.Pairwise.sublist hsub hsort).imp ?_
      intro a b hab
      simp only [circuitLE, circuitOfMeeting, decide_eq_true_eq]
      exact hab
    exact List.mergeSort_of_sorted hpw

/-- Concrete instance of `circuits_dedup_first_occurrence`: the circuit
derived for key 1 projects the first meeting with that key, and on the
chronologically ordered list `[mtgB, mtgA]` the date re-sort of
`getCircuitsByYear` is the identity. -/
theorem circuits_dedup_first_occurrence_witness :
    (∃ m, [mtgA, mtgB].find? (fun m2 =>
        m2.circuit_key == (circuitOfMeeting mtgA).circuit_key) = some m ∧
      circuitOfMeeting mtgA = circuitOfMeeting m) ∧
    getCircuitsByYear [mtgB, mtgA] = getCircuits [mtgB, mtgA] :=
  ⟨(circuits_dedup_first_occurrence [mtgA, mtgB]).2.2.1 (circuitOfMeeting mtgA)
     (by decide),
   (circuits_dedup_first_occurrence [mtgB, mtgA]).2.2.2.2.2.2.2 (by decide)⟩

/-- Reading an additively bumped counter map: the bump lands exactly on the
updated key. -/
theorem mapSet_add_eval {κ : Type} [DecidableEq κ] (dp : κ → Nat) (k x : κ) (δ : Nat) :
    mapSet dp k (dp k + δ) x = dp x + (if x = k then δ else 0) := by
  by_cases h : x = k
  · subst h; simp [mapSet]
  · simp [mapSet, h]

/-- Under distinct driver numbers, summing a single-key indicator over the
drivers of one team counts 1 exactly when the driver found for that number
belongs to the team. -/
theorem sum_ite_key :
    ∀ (roster : List Driver) (num0 : Nat) (drv : Driver) (δ : Nat) (team : String),
      (roster.map (fun d => d.driver_number)).Nodup →
      roster.find? (fun d => d.driver_number == num0) = some drv →
      ((roster.filter (fun d => d.team_name == team)).map
        (fun d => if d.driver_number = num0 then δ else 0)).sum =
      if team = drv.team_name then δ else 0 := by
  intro roster
  induction roster with
  | nil => intro num0 drv δ team _ hfind; simp at hfind
  | cons d rest ih =>
    intro num0 drv δ team hnd hfind
    rw [List.map_cons, List.nodup_cons] at hnd
    rw [List.find?_cons] at hfind
    cases hbeq : (d.driver_number == num0) with
    | true =>
      rw [hbeq] at hfind
      have hdrv : drv = d := by
        simpa using hfind.symm
      rw [hdrv]
      have hnum : d.driver_number = num0 := by simpa using hbeq
      have hrest0 : ((rest.filter (fun d2 => d2.team_name == team)).map
          (fun d2 => if d2.driver_number = num0 then δ else 0)).sum = 0 := by
        refine List.sum_eq_zero ?_
        intro x hx
        obtain ⟨d2, hd2, hval⟩ := List.mem_map.mp hx
        have hd2r : d2 ∈ rest := (List.mem_filter.mp hd2).1
        have hne : d2.driver_number ≠ num0 := by
          intro heq
          apply hnd.1
          have hsame : d.driver_number = d2.driver_number := by rw [hnum, heq]
          rw [hsame]
          exact List.mem_map_of_mem _ hd2r
        rw [if_neg hne] at hval
        exact hval.symm
      rw [List.filter_cons]
      by_cases ht : (d.team_name == team) = true
      · rw [if_pos ht, List.map_cons, List.sum_cons, if_pos hnum, hrest0]
        have hteq : team = d.team_name := (beq_iff_eq.mp ht).symm
        rw [if_pos hteq, Nat.add_zero]
      · rw [if_neg ht, hrest0]
        have htne : ¬ (team = d.team_name) := by
          simp only [beq_iff_eq] at ht
          exact fun heq => ht heq.symm
        rw [if_neg htne]
    | false =>
      rw [hbeq] at hfind
      have hres := ih num0 drv δ team hnd.2 hfind
      have hdnum : ¬ (d.driver_number = num0) := by simpa using hbeq
      rw [List.filter_cons]
      by_cases ht : (d.team_name == team) = true
      · rw [if_pos ht, List.map_cons, List.sum_cons, if_neg hdnum, hres, Nat.zero_add]
      · rw [if_neg ht, hres]

/-- Bumping a driver counter by δ at a found driver number and the team
counter of that driver by δ preserves the per-team sum invariant. -/
theorem PairTeamSum.bump (roster : List Driver) (dp : Nat → Nat) (cp : String → Nat)
    (num0 : Nat) (drv : Driver) (δ : Nat)
    (hnd : (roster.map (fun d => d.driver_number)).Nodup)
    (hfind : roster.find? (fun d => d.driver_number == num0) = some drv)
    (hinv : PairTeamSum roster dp cp) :
    PairTeamSum roster (mapSet dp num0 (dp num0 + δ))
      (mapSet cp drv.team_name (cp drv.team_name + δ)) := by
  intro team
  rw [mapSet_add_eval]
  have h2 : ((roster.filter (fun d => d.team_name == team)).map
      (fun d => mapSet dp num0 (dp num0 + δ) d.driver_number)).sum =
      ((roster.filter (fun d => d.team_name == team)).map
        (fun d => dp d.driver_number)).sum +
      ((roster.filter (fun d => d.team_name == team)).map
        (fun d => if d.driver_number = num0 then δ else 0)).sum := by
    simp only [mapSet_add_eval]
    exact List.sum_map_add
  rw [h2, sum_ite_key roster num0 drv δ team hnd hfind, ← hinv team]

/-- The zero tallies satisfy the per-team sum invariant. -/
theorem initTallies_inv (roster : List Driver) : TalliesInv roster initTallies := by
  constructor <;> intro team <;>
    simp [initTallies, List.sum_eq_zero, PairTeamSum]

/-- Awarding one position entry preserves the per-team sum invariant when
the roster has pairwise distinct driver numbers. -/
theorem awardEntry_inv (roster : List Driver) (t : Tallies) (pos : Position) (index : Nat)
    (hnd : (roster.map (fun d => d.driver_number)).Nodup)
    (hinv : TalliesInv roster t) : TalliesInv roster (awardEntry roster t pos index) := by
  cases hfind : roster.find? (fun d => d.driver_number == pos.driver_number) with
  | none => simpa [awardEntry, hfind] using hinv
  | some drv =>
    by_cases hp : 0 < F1_POINTS_SYSTEM.getD index 0
    · by_cases hw : pos.position = 1
      · simp only [awardEntry, hfind, if_pos hp, if_pos hw]
        exact ⟨PairTeamSum.bump roster _ _ _ drv _ hnd hfind hinv.1,
               PairTeamSum.bump roster _ _ _ drv _ hnd hfind hinv.2⟩
      · simp only [awardEntry, hfind, if_pos hp, if_neg hw]
        exact ⟨PairTeamSum.bump roster _ _ _ drv _ hnd hfind hinv.1, hinv.2⟩
    · by_cases hw : pos.position = 1
      · simp only [awardEntry, hfind, if_neg hp, if_pos hw]
        exact ⟨hinv.1, PairTeamSum.bump roster _ _ _ drv _ hnd hfind hinv.2⟩
      · simpa only [awardEntry, hfind, if_neg hp, if_neg hw] using hinv

/-- Processing one race preserves the per-team sum invariant. -/
theorem processRace_inv (roster : List Driver) (fetch : Nat → Except Unit (List Position))
    (t : Tallies) (race : Session)
    (hnd : (roster.map (fun d => d.driver_number)).Nodup)
    (hinv : TalliesInv roster t) : TalliesInv roster (processRace roster fetch t race) := by
  cases hf : fetch race.session_key with
  | error e => simpa [processRace, hf] using hinv
  | ok positions =>
    by_cases he : positions.isEmpty = true
    · simpa [processRace, hf, he] using hinv
    · simp only [processRace, hf, if_neg he]
      exact foldl_preserves
        (fun acc p hacc => awardEntry_inv roster acc p.2 p.1 hnd hacc) _ t hinv

/-- The tallies after the whole race loop satisfy the per-team sum
invariant. -/
theorem raceTallies_inv (roster : List Driver)
    (fetch : Nat → Except Unit (List Position)) (completedRaces : List Session)
    (hnd : (roster.map (fun d => d.driver_number)).Nodup) :
    TalliesInv roster (raceTallies roster fetch completedRaces) :=
  foldl_preserves (fun acc race hacc => processRace_inv roster fetch acc race hnd hacc)
    completedRaces initTallies (initTallies_inv roster)

/-- Summing any row field of the sorted driver standings over one team
equals summing the corresponding tallies over the roster drivers of that
team. -/
theorem attach_sum_field (roster : List Driver) (T : Tallies) (tn : String)
    (g : DriverStandingEntry → Nat) :
    ((((attachAll roster T).mergeSort driverLE).filter
        (fun d => d.driver.team_name == tn)).map g).sum =
    ((roster.filter (fun d => d.team_name == tn)).map
      (fun d => g ⟨d, T.driverPoints d.driver_number, T.driverWins d.driver_number⟩)).sum := by
  have hperm := (List.mergeSort_perm (attachAll roster T) driverLE).filter
    (fun d => d.driver.team_name == tn)
  rw [(hperm.map g).sum_eq, attachAll, List.filter_map, List.map_map]
  rfl

/-- C10: in any successful standings computation over a roster with
pairwise distinct driver numbers, the constructor names are exactly the
roster team names, each constructor row sums the points and wins of the
output driver rows of its team, and a position entry whose driver number is
not in the roster changes no tally at all. -/
theorem constructor_aggregation_consistent
    (year : Nat) (races : List Session) (now : Nat) (roster : List Driver)
    (fetch : Nat → Except Unit (List Position)) (res : StandingsResult)
    (trace : List FetchEv)
    (hnd : (roster.map (fun d => d.driver_number)).Nodup)
    (hok : calculateStandingsFromRaces year races now (.ok roster) fetch = (.ok res, trace)) :
    (∀ n, n ∈ res.constructors.map (fun c => c.name) ↔
      n ∈ roster.map (fun d => d.team_name)) ∧
    (∀ c ∈ res.constructors,
      c.points = ((res.drivers.filter (fun d => d.driver.team_name == c.name)).map
        (fun d => d.points)).sum ∧
      c.wins = ((res.drivers.filter (fun d => d.driver.team_name == c.name)).map
        (fun d => d.wins)).sum) ∧
    (∀ (t : Tallies) (pos : Position) (index : Nat),
      roster.find? (fun d => d.driver_number == pos.driver_number) = none →
      awardEntry roster t pos index = t) := by
  by_cases hemp : races.isEmpty = true
  · simp [calculateStandingsFromRaces, hemp] at hok
  · simp only [calculateStandingsFromRaces, if_neg hemp, Prod.mk.injEq,
      Except.ok.injEq] at hok
    obtain ⟨hres, -⟩ := hok
    subst hres
    dsimp only
    have hinvT := raceTallies_inv roster fetch (races.filter (isCompleted now)) hnd
    refine ⟨?_, ?_, ?_⟩
    · intro n
      have hperm := List.mergeSort_perm
        ((jsSetList (roster.map (fun d => d.team_name))).map
          (constructorEntry roster (raceTallies roster fetch
            (races.filter (isCompleted now))))) constructorLE
      rw [(hperm.map (fun c => c.name)).mem_iff, List.map_map]
      have hcomp : ((fun c : ConstructorStandingsEntry => c.name) ∘
          (constructorEntry roster (raceTallies roster fetch
            (races.filter (isCompleted now))))) = fun tn => tn := rfl
      rw [hcomp, List.map_id', jsSetList, mem_jsSetDedup]
      simp
    · intro c hc
      rw [List.mem_mergeSort] at hc
      obtain ⟨tn, htn, hce⟩ := List.mem_map.mp hc
      subst hce
      constructor
      · have h1 := attach_sum_field roster
          (raceTallies roster fetch (races.filter (isCompleted now))) tn
          (fun d => d.points)
        have h2 := hinvT.1 tn
        exact h2.trans (h1.symm)
      · have h1 := attach_sum_field roster
          (raceTallies roster fetch (races.filter (isCompleted now))) tn
          (fun d => d.wins)
        have h2 := hinvT.2 tn
        exact h2.trans (h1.symm)
    · intro t pos index hnone
      simp [awardEntry, hnone]

unseal List.merge List.mergeSort in
/-- Concrete instance of `constructor_aggregation_consistent`: in the
two-race scenario, team X appears among the constructor names, and the
constructor row of team X (43 points, 1 win) sums the rows of its single
driver. -/
theorem constructor_aggregation_consistent_witness :
    ("X" ∈ scenResult.constructors.map (fun c => c.name) ↔
      "X" ∈ [drvA, drvB].map (fun d => d.team_name)) ∧
    ((⟨"X", "FF0000", [drvA], 43, 1⟩ : ConstructorStandingsEntry).points =
      ((scenResult.drivers.filter (fun d => d.driver.team_name ==
        (⟨"X", "FF0000", [drvA], 43, 1⟩ : ConstructorStandingsEntry).name)).map
        (fun d => d.points)).sum ∧
      (⟨"X", "FF0000", [drvA], 43, 1⟩ : ConstructorStandingsEntry).wins =
      ((scenResult.drivers.filter (fun d => d.driver.team_name ==
        (⟨"X", "FF0000", [drvA], 43, 1⟩ : ConstructorStandingsEntry).name)).map
        (fun d => d.wins)).sum) :=
  ⟨(constructor_aggregation_consistent 2025 [scenRace1, scenRace2] 1000 [drvA, drvB]
      scenFetch scenResult scenTrace (by decide) rfl).1 "X",
   (constructor_aggregation_consistent 2025 [scenRace1, scenRace2] 1000 [drvA, drvB]
      scenFetch scenResult scenTrace (by decide) rfl).2.1
     ⟨"X", "FF0000", [drvA], 43, 1⟩ (by decide)⟩
